import Mathlib

/-!
Verification of the configuration-compilation and derived-request-state
subsystem of the express repository (lib/express.js, lib/request.js,
lib/utils.js and the view module).

The JavaScript source is shallowly embedded: strings are Lean `String`s
(manipulated through their underlying `List Char` so that everything
reduces in the kernel), JavaScript values flowing through the settings
store are an inductive `JsVal`, header maps are association lists with
lower-case keys (node lower-cases incoming header names), and each getter
or method becomes a pure function of the data it reads.  External npm
modules (`proxy-addr`, `fresh`, node's `path`/`fs`/`net`) are either kept
abstract (function parameters, opaque constructors) or modelled from the
spec where noted.
-/

set_option maxRecDepth 4000

/-! ## Basic JavaScript string helpers (embedded over `List Char`) -/

/-- `s.substring(0, i)` for an ASCII/char-indexed model of JS strings. -/
def substrTo (s : String) (i : Nat) : String := String.mk (s.data.take i)

/-- `s.substring(i)` (drop the first `i` characters). -/
def substrFrom (s : String) (i : Nat) : String := String.mk (s.data.drop i)

/-- Index of the first occurrence of `c`, as `String.prototype.indexOf`
(`none` plays the role of `-1`). -/
def listIndexOf (c : Char) : List Char → Option Nat
  | [] => none
  | x :: xs => if x = c then some 0 else (listIndexOf c xs).map (· + 1)

/-- `s.indexOf(c)`. -/
def jsIndexOf (s : String) (c : Char) : Option Nat := listIndexOf c s.data

/-- `s.indexOf(c, start)`: search starting at index `start`. -/
def jsIndexOfFrom (s : String) (c : Char) (start : Nat) : Option Nat :=
  (listIndexOf c (s.data.drop start)).map (· + start)

/-- Index of the last occurrence of `c` (JS `lastIndexOf`). -/
def listLastIndexOf (c : Char) (l : List Char) : Option Nat :=
  match listIndexOf c l.reverse with
  | some i => some (l.length - 1 - i)
  | none => none

/-- `String.prototype.trim`, dropping leading whitespace. -/
def trimLeftJS (s : String) : String := String.mk (s.data.dropWhile Char.isWhitespace)

/-- `String.prototype.trimRight` (alias `trimEnd`). -/
def trimRightJS (s : String) : String :=
  String.mk ((s.data.reverse.dropWhile Char.isWhitespace).reverse)

/-- `String.prototype.trim`. -/
def trimJS (s : String) : String := trimLeftJS (trimRightJS s)

/-- `String.prototype.toLowerCase` restricted to the ASCII range, which is
all header names use. -/
def toLowerJS (s : String) : String := String.mk (s.data.map Char.toLower)

/-- `s.split(c)` on a single-character separator, JS semantics
(`"".split(",") = [""]`, separators at the ends produce empty pieces). -/
def splitOnCharAux (c : Char) : List Char → List Char → List (List Char)
  | [], acc => [acc.reverse]
  | x :: xs, acc =>
    if x = c then acc.reverse :: splitOnCharAux c xs []
    else splitOnCharAux c xs (x :: acc)

/-- `s.split(c)` for a one-character separator. -/
def splitOnChar (c : Char) (s : String) : List String :=
  (splitOnCharAux c s.data []).map String.mk

/-! ## Header map and `req.get` / `req.header` (lib/request.js lines 70-125)

`this.headers` is node's lower-cased header map; we embed it as an
association list whose keys are lower-case. -/

/-- First-match association-list lookup (JS object property read). -/
def alookup {α : Type} : List (String × α) → String → Option α
  | [], _ => none
  | (k2, v) :: rest, k => if k2 = k then some v else alookup rest k

/-- Insert, overwriting an existing binding (JS property write). -/
def ainsert {α : Type} : List (String × α) → String → α → List (String × α)
  | [], k, v => [(k, v)]
  | (k2, w) :: rest, k, v =>
    if k2 = k then (k, v) :: rest else (k2, w) :: ainsert rest k v

/-- `delete obj[k]` (JS property removal). -/
def aerase {α : Type} : List (String × α) → String → List (String × α)
  | [], _ => []
  | (k2, w) :: rest, k => if k2 = k then aerase rest k else (k2, w) :: aerase rest k

/-- JS `a || b` on possibly-absent strings: an absent or empty (falsy)
first operand yields the second. -/
def jsOrStr : Option String → Option String → Option String
  | some v, b => if v = "" then b else some v
  | none, b => b

/-- The body of `req.get` after its argument checks: lower-case the name,
special-case `referer`/`referrer` (prefer the `referrer` entry, `||`-style),
otherwise index the header map with the lower-cased name. -/
def reqHeaderValue (hdrs : List (String × String)) (name : String) : Option String :=
  let lc := toLowerJS name
  if lc = "referer" ∨ lc = "referrer" then
    jsOrStr (alookup hdrs "referrer") (alookup hdrs "referer")
  else
    alookup hdrs lc

/-- JavaScript values as they appear in the settings store: primitives,
string arrays, and function values. -/
inductive FnVal where
  /-- an opaque caller-supplied callable, distinguished by an id -/
  | user (id : Nat)
  /-- `function () { return true }` produced by `compileTrust(true)` -/
  | constTrue
  /-- `function (a, i) { return i < val }` produced by `compileTrust(number)` -/
  | hopCount (n : Int)
  /-- the closure returned by `proxyaddr.compile(list)` (external module;
  carried as data, its matching semantics is not modelled) -/
  | addrMatch (l : List String)
  /-- `utils.wetag` -/
  | wetag
  /-- `utils.etag` -/
  | setag
  /-- `querystring.parse` -/
  | qsParse
  /-- `newObject` (the `query parser: false` parser) -/
  | newObject
  /-- `parseExtendedQueryString` -/
  | qsExtended
  deriving DecidableEq, Repr

/-- A JavaScript value. -/
inductive JsVal where
  | undef
  | null
  | bool (b : Bool)
  | num (n : Int)
  | str (s : String)
  | strList (l : List String)
  | fn (f : FnVal)
  deriving DecidableEq, Repr

/-- JS falsiness (`!v`) for the values we model (`NaN` is not modelled). -/
def jsFalsy : JsVal → Bool
  | .undef => true
  | .null => true
  | .bool b => !b
  | .num n => n = 0
  | .str s => s = ""
  | .strList _ => false
  | .fn _ => false

/-- JS truthiness of a possibly-absent value (`Boolean(obj[k])`). -/
def jsTruthyOpt : Option JsVal → Bool
  | none => false
  | some v => !jsFalsy v

/-- `req.get` / `req.header` (lib/request.js lines 70-125): a falsy `name`
throws `name argument is required to req.get`, a non-string `name` throws
`name must be a string to req.get`, otherwise the header is looked up by
the lower-cased name.  Thrown `TypeError`s are embedded as `Except.error`. -/
def reqGet (hdrs : List (String × String)) (name : JsVal) : Except String (Option String) :=
  if jsFalsy name then
    .error "name argument is required to req.get"
  else
    match name with
    | .str s => .ok (reqHeaderValue hdrs s)
    | _ => .error "name must be a string to req.get"

/-! ## The `protocol` getter (lib/request.js lines 455-492) -/

/-- The compiled trust policy the getters read from
`this.app.get('trust proxy fn')`: `(remoteAddress, hopIndex) → Bool`. -/
def TrustFn : Type := String → Nat → Bool

/-- `req.protocol`: base value from the encrypted-transport flag; if hop 0
is untrusted return it unchanged; otherwise `X-Forwarded-Proto || proto`,
and the part before the first comma, trimmed. -/
def protocolGetter (encrypted : Bool) (trust : TrustFn) (remoteAddress : String)
    (hdrs : List (String × String)) : String :=
  let proto := if encrypted then "https" else "http"
  if !(trust remoteAddress 0) then
    proto
  else
    let header :=
      match reqHeaderValue hdrs "X-Forwarded-Proto" with
      | some v => if v = "" then proto else v
      | none => proto
    match jsIndexOf header ',' with
    | some i => trimJS (substrTo header i)
    | none => trimJS header

/-! ## The `hostname` getter (lib/request.js lines 616-667) -/

/-- The trailing-`:port` stripper at the end of the `hostname` getter:
skip a leading bracketed IPv6 literal (`host.indexOf(']') + 1`, which is
`0` when there is no `]`), then cut at the first `:` at or after that
offset. -/
def stripPortIPv6 (host : String) : String :=
  let offset :=
    if host.data.headD ' ' = '[' then
      match jsIndexOf host ']' with
      | some j => j + 1
      | none => 0
    else 0
  match jsIndexOfFrom host ':' offset with
  | some i => substrTo host i
  | none => host

/-- `req.hostname` as the code computes it: choose `Host` when
`X-Forwarded-Host` is falsy or hop 0 is untrusted, otherwise cut the
forwarded value at the first comma (right-trimming only in that branch);
a falsy result is absent; finally strip the port. -/
def hostnameGetter (trust : TrustFn) (remoteAddress : String)
    (hdrs : List (String × String)) : Option String :=
  let fwdHost := reqHeaderValue hdrs "X-Forwarded-Host"
  let host : Option String :=
    if (fwdHost.getD "") = "" ∨ !(trust remoteAddress 0) then
      reqHeaderValue hdrs "Host"
    else
      let h := fwdHost.getD ""
      match jsIndexOf h ',' with
      | some i => some (trimRightJS (substrTo h i))
      | none => some h
  match host with
  | none => none
  | some h =>
    if h = "" then none
    else some (stripPortIPv6 h)

/-- The `hostname` behaviour exactly as the claim words it: when the
forwarded header is used, its first comma-delimited token is always
right-trimmed ("absent" follows the code's falsy test, since the spec
treats an empty and a missing host alike). -/
def hostnameClaimed (trust : TrustFn) (remoteAddress : String)
    (hdrs : List (String × String)) : Option String :=
  let fwdHost := reqHeaderValue hdrs "X-Forwarded-Host"
  let host : Option String :=
    if (fwdHost.getD "") = "" ∨ !(trust remoteAddress 0) then
      reqHeaderValue hdrs "Host"
    else
      let h := fwdHost.getD ""
      some (trimRightJS (String.mk (h.data.takeWhile (· ≠ ','))))
  match host with
  | none => none
  | some h =>
    if h = "" then none
    else some (stripPortIPv6 h)

/-- The amended `hostname` behaviour: the first comma-delimited token of a
trusted `X-Forwarded-Host` is right-trimmed only when the header actually
contains a comma; a single-valued header is used as-is. -/
def hostnameAmended (trust : TrustFn) (remoteAddress : String)
    (hdrs : List (String × String)) : Option String :=
  let fwdHost := reqHeaderValue hdrs "X-Forwarded-Host"
  let host : Option String :=
    if (fwdHost.getD "") = "" ∨ !(trust remoteAddress 0) then
      reqHeaderValue hdrs "Host"
    else
      let h := fwdHost.getD ""
      if ',' ∈ h.data then
        some (trimRightJS (String.mk (h.data.takeWhile (· ≠ ','))))
      else
        some h
  match host with
  | none => none
  | some h =>
    if h = "" then none
    else some (stripPortIPv6 h)

/-! ## Helper lemmas on the list-level string operations -/

theorem listIndexOf_take_eq_takeWhile (c : Char) (l : List Char) :
    (match listIndexOf c l with
     | some i => l.take i
     | none => l) = l.takeWhile (· ≠ c) := by
  induction l with
  | nil => rfl
  | cons x xs ih =>
    by_cases hx : x = c
    · subst hx
      simp [listIndexOf, List.takeWhile_cons]
    · simp only [listIndexOf, if_neg hx, List.takeWhile_cons]
      cases h : listIndexOf c xs with
      | none =>
        simp only [h] at ih
        simp only [h, Option.map_none']
        simp only [ne_eq, decide_not] at ih
        simp [hx, ← ih]
      | some i =>
        simp only [h] at ih
        simp only [h, Option.map_some']
        simp [hx, List.take_succ_cons, ih]

theorem listIndexOf_none_not_mem (c : Char) (l : List Char)
    (h : listIndexOf c l = none) : c ∉ l := by
  induction l with
  | nil => simp
  | cons x xs ih =>
    simp only [listIndexOf] at h
    by_cases hx : x = c
    · rw [if_pos hx] at h
      exact absurd h (by simp)
    · rw [if_neg hx, Option.map_eq_none'] at h
      intro hmem
      rcases List.mem_cons.mp hmem with h1 | h2
      · exact hx h1.symm
      · exact ih h h2

theorem listIndexOf_some_mem (c : Char) (l : List Char) (i : Nat)
    (h : listIndexOf c l = some i) : c ∈ l := by
  induction l generalizing i with
  | nil => simp [listIndexOf] at h
  | cons x xs ih =>
    simp only [listIndexOf] at h
    by_cases hx : x = c
    · simp [hx]
    · simp only [if_neg hx, Option.map_eq_some'] at h
      obtain ⟨j, hj, -⟩ := h
      exact List.mem_cons_of_mem _ (ih j hj)

theorem string_mk_data (s : String) : String.mk s.data = s := rfl

/-! ## Claims about the request getters -/

/-- Claim C1: the protocol getter's base value is `https` iff the
transport-encryption flag is set; an untrusted hop 0 returns the base
value regardless of `X-Forwarded-Proto`; a trusted hop 0 with a non-empty
`X-Forwarded-Proto` yields the first comma-delimited token of that header,
trimmed.  Includes the spec's two round-trip examples. -/
theorem claim_C1_protocol :
    (∀ (encrypted : Bool) (trust : TrustFn) (addr : String)
        (hdrs : List (String × String)),
        trust addr 0 = false →
        protocolGetter encrypted trust addr hdrs
          = (if encrypted then "https" else "http")) ∧
    (∀ (encrypted : Bool) (trust : TrustFn) (addr : String)
        (hdrs : List (String × String)) (v : String),
        trust addr 0 = true →
        reqHeaderValue hdrs "X-Forwarded-Proto" = some v → v ≠ "" →
        protocolGetter encrypted trust addr hdrs
          = trimJS (String.mk (v.data.takeWhile (· ≠ ',')))) ∧
    protocolGetter false (fun _ _ => false) "203.0.113.9"
        [("x-forwarded-proto", "https")] = "http" ∧
    protocolGetter false (fun _ _ => true) "203.0.113.9"
        [("x-forwarded-proto", "https, http")] = "https" := by
  refine ⟨?_, ?_, by decide, by decide⟩
  · intro encrypted trust addr hdrs ht
    simp [protocolGetter, ht]
  · intro encrypted trust addr hdrs v ht hv hne
    simp only [protocolGetter, ht, Bool.not_true, Bool.false_eq_true, if_false, hv,
      if_neg hne]
    have key := listIndexOf_take_eq_takeWhile ',' v.data
    cases hidx : jsIndexOf v ',' with
    | some i =>
      simp only [jsIndexOf] at hidx
      simp only [hidx] at key
      simp only [jsIndexOf, hidx, substrTo, key]
    | none =>
      simp only [jsIndexOf] at hidx
      simp only [hidx] at key
      simp only [jsIndexOf, hidx, ← key, string_mk_data]

/-- Witness for claim C1 at a concrete trusted request. -/
theorem claim_C1_protocol_witness :
    protocolGetter true (fun _ _ => true) "10.0.0.1"
      [("x-forwarded-proto", " https ,http")] = "https" := by
  have h := claim_C1_protocol.2.1 true (fun _ _ => true) "10.0.0.1"
    [("x-forwarded-proto", " https ,http")] " https ,http" rfl (by decide) (by decide)
  rw [h]
  decide

/-- The code's hostname computation agrees with the amended claim
everywhere: the only difference from the claim as written is that the
right-trim is applied only when the forwarded header contains a comma. -/
theorem hostname_eq_amended (trust : TrustFn) (addr : String)
    (hdrs : List (String × String)) :
    hostnameGetter trust addr hdrs = hostnameAmended trust addr hdrs := by
  unfold hostnameGetter hostnameAmended
  by_cases hcond : ((reqHeaderValue hdrs "X-Forwarded-Host").getD "") = ""
      ∨ !(trust addr 0)
  · simp only [if_pos hcond]
  · simp only [if_neg hcond]
    have hosts :
        (match jsIndexOf ((reqHeaderValue hdrs "X-Forwarded-Host").getD "") ',' with
         | some i =>
            some (trimRightJS (substrTo ((reqHeaderValue hdrs "X-Forwarded-Host").getD "") i))
         | none => some ((reqHeaderValue hdrs "X-Forwarded-Host").getD ""))
        = (if ',' ∈ ((reqHeaderValue hdrs "X-Forwarded-Host").getD "").data then
            some (trimRightJS (String.mk
              (((reqHeaderValue hdrs "X-Forwarded-Host").getD "").data.takeWhile (· ≠ ','))))
          else some ((reqHeaderValue hdrs "X-Forwarded-Host").getD "")) := by
      set h := (reqHeaderValue hdrs "X-Forwarded-Host").getD "" with hdef
      have key := listIndexOf_take_eq_takeWhile ',' h.data
      cases hidx : jsIndexOf h ',' with
      | some i =>
        have hmem : ',' ∈ h.data := listIndexOf_some_mem ',' h.data i hidx
        simp only [jsIndexOf] at hidx
        simp only [hidx] at key
        simp only [jsIndexOf, hidx, if_pos hmem, substrTo, key]
      | none =>
        have hmem : ',' ∉ h.data := listIndexOf_none_not_mem ',' h.data hidx
        simp only [jsIndexOf] at hidx
        simp only [jsIndexOf, hidx, if_neg hmem]
    rw [hosts]

/-- Counterexample to claim C2 as written: with a trusted peer and the
single-valued header `X-Forwarded-Host: a.example ` (trailing blank, no
comma), the code keeps the trailing whitespace, while the claim demands
the right-trimmed first token `a.example`. -/
theorem claim_C2_counterexample :
    hostnameGetter (fun _ _ => true) "10.0.0.1"
        [("x-forwarded-host", "a.example ")] = some "a.example " ∧
    hostnameClaimed (fun _ _ => true) "10.0.0.1"
        [("x-forwarded-host", "a.example ")] = some "a.example" ∧
    hostnameGetter (fun _ _ => true) "10.0.0.1" [("x-forwarded-host", "a.example ")]
      ≠ hostnameClaimed (fun _ _ => true) "10.0.0.1" [("x-forwarded-host", "a.example ")] := by
  refine ⟨by decide, by decide, by decide⟩

/-- Claim C2 (amended): the hostname getter uses `Host` when the forwarded
host is falsy or hop 0 is untrusted, otherwise the first comma-delimited
token of `X-Forwarded-Host`, right-trimmed only when the header contains a
comma; the trailing `:port` is stripped only after skipping a leading
bracketed IPv6 literal; an empty or absent host is absent. -/
theorem claim_C2_hostname :
    (∀ (trust : TrustFn) (addr : String) (hdrs : List (String × String)),
        hostnameGetter trust addr hdrs = hostnameAmended trust addr hdrs) ∧
    hostnameGetter (fun _ _ => false) "203.0.113.9"
        [("host", "example.com:8080")] = some "example.com" ∧
    hostnameGetter (fun _ _ => false) "203.0.113.9"
        [("host", "[::1]:8080")] = some "[::1]" ∧
    hostnameGetter (fun _ _ => false) "203.0.113.9" [] = none := by
  exact ⟨hostname_eq_amended, by decide, by decide, by decide⟩

/-- Claim C10: a falsy name throws, a non-string name throws, a truthy
string name never throws and is looked up case-insensitively (lower-cased
before indexing the header map). -/
theorem claim_C10_req_get :
    (∀ (hdrs : List (String × String)) (name : JsVal), jsFalsy name = true →
        reqGet hdrs name = .error "name argument is required to req.get") ∧
    (∀ (hdrs : List (String × String)) (name : JsVal), jsFalsy name = false →
        (∀ s, name ≠ JsVal.str s) →
        reqGet hdrs name = .error "name must be a string to req.get") ∧
    (∀ (hdrs : List (String × String)) (s t : String), s ≠ "" → t ≠ "" →
        toLowerJS s = toLowerJS t →
        reqGet hdrs (.str s) = reqGet hdrs (.str t)) ∧
    (∀ (hdrs : List (String × String)) (s : String), s ≠ "" →
        reqGet hdrs (.str s) = .ok (reqHeaderValue hdrs s)) := by
  refine ⟨?_, ?_, ?_, ?_⟩
  · intro hdrs name h
    simp [reqGet, h]
  · intro hdrs name h hs
    cases name with
    | str s => exact absurd rfl (hs s)
    | undef => simp [jsFalsy] at h
    | null => simp [jsFalsy] at h
    | bool b => simp [reqGet, h]
    | num n => simp [reqGet, h]
    | strList l => simp [reqGet, h]
    | fn f => simp [reqGet, h]
  · intro hdrs s t hs ht hlow
    have hfs : jsFalsy (.str s) = false := by simpa [jsFalsy] using hs
    have hft : jsFalsy (.str t) = false := by simpa [jsFalsy] using ht
    simp only [reqGet, hfs, hft, Bool.false_eq_true, if_false]
    simp only [reqHeaderValue, hlow]
  · intro hdrs s hs
    have hfs : jsFalsy (.str s) = false := by simpa [jsFalsy] using hs
    simp [reqGet, hfs]

/-- Witness for claim C10: a mixed-case lookup succeeds, a falsy and a
non-string name throw. -/
theorem claim_C10_req_get_witness :
    reqGet [("content-type", "text/plain")] (.str "Content-Type")
        = reqGet [("content-type", "text/plain")] (.str "CONTENT-type") ∧
    reqGet [] .undef = .error "name argument is required to req.get" ∧
    reqGet [] (.num 42) = .error "name must be a string to req.get" := by
  refine ⟨?_, claim_C10_req_get.1 [] .undef (by decide), ?_⟩
  · exact claim_C10_req_get.2.2.1 [("content-type", "text/plain")]
      "Content-Type" "CONTENT-type" (by decide) (by decide) (by decide)
  · exact claim_C10_req_get.2.1 [] (.num 42) (by decide) (by intro s h; cases h)

/-! ## Setting compilers (lib/utils.js lines 163-281) -/

/-- Drop leading plain spaces (the regex piece `" *"` matches only the
space character). -/
def dropSpacesLeft (s : String) : String := String.mk (s.data.dropWhile (· = ' '))

/-- Drop trailing plain spaces. -/
def dropSpacesRight (s : String) : String :=
  String.mk ((s.data.reverse.dropWhile (· = ' ')).reverse)

/-- `val.split(/ *, */)`: split on commas, each comma absorbing the spaces
directly around it.  Pieces keep spaces not adjacent to a comma, the first
piece keeps leading spaces and the last keeps trailing spaces. -/
def splitTrustList (s : String) : List String :=
  let parts := splitOnChar ',' s
  let n := parts.length
  parts.enum.map (fun p =>
    let s1 := if 0 < p.1 then dropSpacesLeft p.2 else p.2
    if p.1 + 1 < n then dropSpacesRight s1 else s1)

/-- `compileTrust` (lib/utils.js lines 250-281): a function is passed
through; `true` becomes the constant-true closure; a number `n` becomes
the hop-count closure `(a, i) => i < n`; a string is split with
`/ *, */` and falls through to `proxyaddr.compile`; a list is compiled
directly; `undefined`/`null`/`false` compile the empty list. -/
def compileTrust : JsVal → JsVal
  | .fn f => .fn f
  | .bool true => .fn .constTrue
  | .num n => .fn (.hopCount n)
  | .str s => .fn (.addrMatch (splitTrustList s))
  | .strList l => .fn (.addrMatch l)
  | _ => .fn (.addrMatch [])

/-- Semantics of the closures `compileTrust` builds itself (the
`proxyaddr.compile` closure and caller-supplied callables live outside
this repository and are not modelled; they never arise in the claims). -/
def FnVal.applyTrust : FnVal → String → Nat → Bool
  | .constTrue, _, _ => true
  | .hopCount n, _, i => decide ((i : Int) < n)
  | _, _, _ => false

/-- Apply a settings value that is a function as a trust policy. -/
def callTrustFn (v : JsVal) (a : String) (i : Nat) : Bool :=
  match v with
  | .fn f => f.applyTrust a i
  | _ => false

/-- `compileETag` (lib/utils.js lines 163-187): functions pass through,
`true`/`"weak"` give the weak generator, `"strong"` the strong one,
`false` yields `undefined`, anything else throws. -/
def compileETag : JsVal → Except String JsVal
  | .fn f => .ok (.fn f)
  | .bool true => .ok (.fn .wetag)
  | .bool false => .ok .undef
  | .str "strong" => .ok (.fn .setag)
  | .str "weak" => .ok (.fn .wetag)
  | _ => .error "unknown value for etag function"

/-- `compileQueryParser` (lib/utils.js lines 208-233): functions pass
through, `true`/`"simple"` give `querystring.parse`, `false` the
empty-object parser, `"extended"` the qs-based parser, anything else
throws. -/
def compileQueryParser : JsVal → Except String JsVal
  | .fn f => .ok (.fn f)
  | .bool true => .ok (.fn .qsParse)
  | .bool false => .ok (.fn .newObject)
  | .str "extended" => .ok (.fn .qsExtended)
  | .str "simple" => .ok (.fn .qsParse)
  | _ => .error "unknown value for query parser function"

/-! ## Claims about the setting compilers -/

/-- Counterexample to claim C3 as written: the code splits only on commas
(`/ *, */`), so a string of addresses separated only by whitespace stays a
single entry instead of being split into multiple entries. -/
theorem claim_C3_counterexample :
    compileTrust (.str "10.0.0.1 10.0.0.2")
        = .fn (.addrMatch ["10.0.0.1 10.0.0.2"]) ∧
    (splitTrustList "10.0.0.1 10.0.0.2").length = 1 := by
  refine ⟨by decide, by decide⟩

/-- Claim C3 (amended): `compileTrust` splits a string on commas — each
comma absorbing the spaces around it — into an address/CIDR list and
delegates to the list form; whitespace alone does not separate entries. -/
theorem claim_C3_compile_trust_string :
    (∀ s : String,
        compileTrust (.str s) = compileTrust (.strList (splitTrustList s))) ∧
    splitTrustList "10.0.0.1, 10.0.0.2" = ["10.0.0.1", "10.0.0.2"] ∧
    splitTrustList "127.0.0.1 ,  192.168.0.1,10.0.0.3"
        = ["127.0.0.1", "192.168.0.1", "10.0.0.3"] ∧
    splitTrustList "10.0.0.1 10.0.0.2" = ["10.0.0.1 10.0.0.2"] := by
  refine ⟨fun s => rfl, by decide, by decide, by decide⟩

/-- Claim C5: `compileTrust` of a number `n` yields the hop-count policy
that accepts exactly the hops `i < n`, for every address; in particular
`compileTrust(2)` trusts hops 0 and 1 and rejects every hop `≥ 2`. -/
theorem claim_C5_hop_count :
    (∀ (n : Int) (a : String) (i : Nat),
        callTrustFn (compileTrust (.num n)) a i = true ↔ (i : Int) < n) ∧
    (∀ a : String,
        callTrustFn (compileTrust (.num 2)) a 0 = true ∧
        callTrustFn (compileTrust (.num 2)) a 1 = true) ∧
    (∀ (a : String) (i : Nat), 2 ≤ i →
        callTrustFn (compileTrust (.num 2)) a i = false) := by
  refine ⟨?_, ?_, ?_⟩
  · intro n a i
    simp [callTrustFn, compileTrust, FnVal.applyTrust]
  · intro a
    exact ⟨rfl, rfl⟩
  · intro a i hi
    simp only [callTrustFn, compileTrust, FnVal.applyTrust]
    simp only [decide_eq_false_iff_not, not_lt]
    exact_mod_cast hi

/-- Witness for claim C5 at hop 2 of a two-hop policy. -/
theorem claim_C5_hop_count_witness :
    callTrustFn (compileTrust (.num 2)) "198.51.100.7" 2 = false ∧
    callTrustFn (compileTrust (.num 2)) "198.51.100.7" 1 = true := by
  refine ⟨claim_C5_hop_count.2.2 "198.51.100.7" 2 (by decide), ?_⟩
  exact ((claim_C5_hop_count.1 2 "198.51.100.7" 1).mpr (by decide))

/-! ## Node path helpers

Modelled from node's `path` module (an external dependency of the view
module): POSIX separators, resolution of a relative name against a root
modelled as plain concatenation. -/

/-- `path.basename(p)`: the part after the last `/`. -/
def basenameJS (p : String) : String :=
  match listLastIndexOf '/' p.data with
  | some i => String.mk (p.data.drop (i + 1))
  | none => p

/-- `path.dirname(p)`: the part before the last `/`. -/
def dirnameJS (p : String) : String :=
  match listLastIndexOf '/' p.data with
  | some i => if i = 0 then "/" else String.mk (p.data.take i)
  | none => "."

/-- `path.extname(p)`: from the last `.` of the basename, empty for a
leading dot. -/
def extnameJS (p : String) : String :=
  let base := basenameJS p
  match listLastIndexOf '.' base.data with
  | some i => if i = 0 then "" else String.mk (base.data.drop i)
  | none => ""

/-- `path.join(a, b)`. -/
def joinJS (a b : String) : String := a ++ "/" ++ b

/-- `path.resolve(root, name)` for the shapes the view lookup produces: an
absolute `name` wins, otherwise it is resolved under `root`. -/
def resolveJS (root name : String) : String :=
  if name.data.headD ' ' = '/' then name else root ++ "/" ++ name

/-- `path.basename(file, ext)`: additionally strips a trailing `ext`,
unless the whole name is the extension. -/
def basenameExtJS (file ext : String) : String :=
  if file ≠ ext ∧ ext.data.isSuffixOf file.data then
    String.mk (file.data.take (file.data.length - ext.data.length))
  else file

/-! ## The View module (view.js) -/

/-- A constructed `View`: logical name, extension, search roots, resolved
path (absent when no file matched) and the bound engine. -/
structure View where
  name : String
  ext : String
  root : List String
  engine : FnVal
  path : Option String
  deriving DecidableEq, Repr

/-- `View.prototype.resolve(dir, file)`: `dir/file` if it is an existing
file, else `dir/<file without ext>/index<ext>`, else nothing.  The file
system is embedded as the list of paths `fs.statSync` reports as regular
files. -/
def viewResolveFile (fs : List String) (ext dir file : String) : Option String :=
  let path1 := joinJS dir file
  if fs.contains path1 then some path1
  else
    let path2 := joinJS (joinJS dir (basenameExtJS file ext)) ("index" ++ ext)
    if fs.contains path2 then some path2
    else none

/-- `View.prototype.lookup(name)`: walk the roots in order, first
resolution wins. -/
def viewLookup (fs : List String) (ext : String) : List String → String → Option String
  | [], _ => none
  | root :: rest, name =>
    let loc := resolveJS root name
    let dir := dirnameJS loc
    let file := basenameJS loc
    match viewResolveFile fs ext dir file with
    | some p => some p
    | none => viewLookup fs ext rest name

/-- Options handed to the `View` constructor. -/
structure ViewOpts where
  defaultEngine : Option String
  root : List String
  engines : List (String × FnVal)

/-- The `View` constructor: determine the extension (falling back to the
default engine, which must exist), bind or dynamically load the engine
(`dynLoad` is the external `require(mod).__express` collaborator; loading
also records the engine in the shared engine table), then look the file
up.  Synchronous throws are `Except.error`; the possibly-extended engine
table is returned alongside the view. -/
def viewNew (dynLoad : String → Option FnVal) (fs : List String) (name : String)
    (opts : ViewOpts) : Except String (View × List (String × FnVal)) :=
  let ext0 := extnameJS name
  if ext0 = "" ∧ (opts.defaultEngine.getD "") = "" then
    .error "No default engine was specified and no extension was provided."
  else
    let ext :=
      if ext0 = "" then
        (let de := opts.defaultEngine.getD ""
         if de.data.headD ' ' ≠ '.' then "." ++ de else de)
      else ext0
    let fileName := if ext0 = "" then name ++ ext else name
    match alookup opts.engines ext with
    | some f =>
      .ok ({ name := name, ext := ext, root := opts.root, engine := f,
             path := viewLookup fs ext opts.root fileName }, opts.engines)
    | none =>
      match dynLoad (substrFrom ext 1) with
      | some f =>
        .ok ({ name := name, ext := ext, root := opts.root, engine := f,
               path := viewLookup fs ext opts.root fileName },
             ainsert opts.engines ext f)
      | none => .error "Module does not provide a view engine."

/-! ## The application settings store (lib/express.js) -/

/-- An application: its own settings map, the
`@@symbol:trust_proxy_default` marker, the flattened prototype chain of
settings maps installed by mounting, the shared engine table and the
render cache. -/
structure App where
  settings : List (String × JsVal)
  tpDefault : Bool
  chain : List (List (String × JsVal))
  engines : List (String × FnVal)
  cache : List (String × View)
  deriving DecidableEq, Repr

/-- Prototype-style lookup through a chain of settings maps. -/
def chainLookup : List (List (String × JsVal)) → String → Option JsVal
  | [], _ => none
  | m :: rest, k =>
    match alookup m k with
    | some v => some v
    | none => chainLookup rest k

/-- `app.get(setting)` / `this.settings[setting]` with prototype
fall-through: own keys first, then the parent chain. -/
def appGet (a : App) (k : String) : Option JsVal :=
  match alookup a.settings k with
  | some v => some v
  | none => chainLookup a.chain k

/-- `app.enabled(setting)`: `Boolean(this.set(setting))`. -/
def appEnabled (a : App) (k : String) : Bool := jsTruthyOpt (appGet a k)

/-- `app.set(setting, val)` (lib/express.js lines 1430-1482): write the
raw value, then for the three primary keys compile and write the derived
`… fn` key; `trust proxy` additionally resets the inheritance marker to
explicit.  A compiler throw surfaces in the second component, with the
raw write already performed (as in the JS, where the exception propagates
after the assignment). -/
def appSet (a : App) (setting : String) (val : JsVal) : App × Option String :=
  let a1 : App := { a with settings := ainsert a.settings setting val }
  match setting with
  | "etag" =>
    (match compileETag val with
     | .ok f => ({ a1 with settings := ainsert a1.settings "etag fn" f }, none)
     | .error e => (a1, some e))
  | "query parser" =>
    (match compileQueryParser val with
     | .ok f => ({ a1 with settings := ainsert a1.settings "query parser fn" f }, none)
     | .error e => (a1, some e))
  | "trust proxy" =>
    ({ a1 with
        settings := ainsert a1.settings "trust proxy fn" (compileTrust val),
        tpDefault := false }, none)
  | _ => (a1, none)

/-- Is a lookup result a function value (`typeof x === "function"`)? -/
def isFnOpt : Option JsVal → Bool
  | some (.fn _) => true
  | _ => false

/-- The `mount` listener (lib/express.js lines 1136-1165): if the child's
trust setting is still the unmodified default and the parent exposes a
compiled `trust proxy fn`, delete the child's own `trust proxy` keys so
lookups fall through; then install the parent's settings as the child's
prototype chain. -/
def onmount (child parent : App) : App :=
  let settings2 :=
    if child.tpDefault && isFnOpt (appGet parent "trust proxy fn") then
      aerase (aerase child.settings "trust proxy") "trust proxy fn"
    else child.settings
  { child with settings := settings2, chain := parent.settings :: parent.chain }

/-- A freshly constructed application before `defaultConfiguration`. -/
def app0 : App := { settings := [], tpDefault := false, chain := [], engines := [], cache := [] }

/-- `defaultConfiguration` (the settings part, `env = development`): the
defaults written through `set`, with the trust-proxy marker re-installed
as `true` (line 1109) right after `set("trust proxy", false)` put it to
`false`. -/
def defaultApp : App :=
  let a := (appSet app0 "x-powered-by" (.bool true)).1
  let a := (appSet a "etag" (.str "weak")).1
  let a := (appSet a "env" (.str "development")).1
  let a := (appSet a "query parser" (.str "extended")).1
  let a := (appSet a "subdomain offset" (.num 2)).1
  let a := (appSet a "trust proxy" (.bool false)).1
  let a := { a with tpDefault := true }
  let a := (appSet a "views" (.str "views")).1
  let a := (appSet a "jsonp callback name" (.str "callback")).1
  a

/-! ## `app.render` (lib/express.js lines 1627-1696) -/

/-- Outcome of one render call, up to the engine invocation. -/
inductive RenderOutcome where
  /-- the primed cache already held the view -/
  | cacheHit (v : View)
  /-- a fresh view was constructed and its path resolved -/
  | resolved (v : View)
  /-- the view constructor returned no path: `Failed to lookup view` -/
  | lookupFailed (name : String)
  /-- the `View` constructor threw synchronously -/
  | thrown (e : String)
  deriving DecidableEq, Repr

/-- The view engine setting as the constructor option. -/
def viewEngineOf (a : App) : Option String :=
  match appGet a "view engine" with
  | some (.str s) => some s
  | _ => none

/-- The `views` roots (`[].concat(root)` accepts one or many). -/
def viewRootsOf (a : App) : List String :=
  match appGet a "views" with
  | some (.str s) => [s]
  | some (.strList l) => l
  | _ => []

/-- `app.render(name, options, callback)` up to the engine call: decide
the effective cache flag (`options.cache` when provided, else the
`view cache` setting), consult the primed cache, otherwise construct a
`View`; failures are reported through the callback (`lookupFailed`) or
propagate (`thrown`); on success the view is cached iff the flag is set.
Returns the updated application and the outcome. -/
def appRender (dynLoad : String → Option FnVal) (fs : List String) (a : App)
    (name : String) (optsCache : Option Bool) : App × RenderOutcome :=
  let cacheFlag := optsCache.getD (appEnabled a "view cache")
  match (if cacheFlag then alookup a.cache name else none) with
  | some v => (a, .cacheHit v)
  | none =>
    match viewNew dynLoad fs name
        { defaultEngine := viewEngineOf a, root := viewRootsOf a, engines := a.engines } with
    | .error e => (a, .thrown e)
    | .ok (v, engines2) =>
      match v.path with
      | none => ({ a with engines := engines2 }, .lookupFailed name)
      | some _ =>
        if cacheFlag then
          ({ a with engines := engines2, cache := ainsert a.cache name v }, .resolved v)
        else
          ({ a with engines := engines2 }, .resolved v)

/-! ## `tryRender` and the engine boundary (lib/express.js lines 1741-1747) -/

/-- What a synchronous engine invocation does: throw, or invoke the
callback with `(err, html)`. -/
inductive EngineStep where
  | threw (e : String)
  | calledBack (err : Option String) (body : Option String)
  deriving DecidableEq, Repr

/-- The behaviour of the engine callable `(path, options, callback)`,
supplied by the external engine module. -/
def EngineSem : Type := String → List (String × String) → EngineStep

/-- The callback invocation the caller of `render` observes. -/
structure CallbackCall where
  err : Option String
  body : Option String
  deriving DecidableEq, Repr

/-- `View.prototype.render`: `this.engine(this.path, options, callback)`. -/
def viewRenderCall (sem : EngineSem) (v : View) (opts : List (String × String)) : EngineStep :=
  sem (v.path.getD "") opts

/-- `tryRender`: run the engine; a synchronous throw is caught and handed
to the same callback as its error argument, so the caller always observes
exactly one callback invocation and never an exception. -/
def tryRender (sem : EngineSem) (v : View) (opts : List (String × String)) : CallbackCall :=
  match viewRenderCall sem v opts with
  | .threw e => { err := some e, body := none }
  | .calledBack e b => { err := e, body := b }

/-! ## `subdomains` (lib/request.js lines 567-585) and `fresh`/`stale`
(lines 688-747) -/

/-- `Array.prototype.slice(start)` including negative-start semantics. -/
def jsSlice (l : List String) (n : Int) : List String :=
  let start := if n < 0 then max ((l.length : Int) + n) 0 else n
  l.drop start.toNat

/-- `req.subdomains`: a falsy hostname gives `[]`; a literal IP address
(`isip` embeds node's `net.isIP`, an external collaborator) is a
single-element list; otherwise split on dots and reverse; then drop the
`subdomain offset` leading entries. -/
def subdomainsGetter (isip : String → Bool) (hostname : Option String)
    (offset : Int) : List String :=
  match hostname with
  | none => []
  | some h =>
    if h = "" then []
    else
      let subs := if !(isip h) then (splitOnChar '.' h).reverse else [h]
      jsSlice subs offset

/-- `req.fresh`: only `GET`/`HEAD` can be fresh, only statuses in
`[200, 300)` or exactly `304` consult the conditional-request evaluator
(the external `fresh` module, abstracted as `condEval`). -/
def freshGetter (method : String) (status : Int) (condEval : Bool) : Bool :=
  if method ≠ "GET" ∧ method ≠ "HEAD" then false
  else if (200 ≤ status ∧ status < 300) ∨ status = 304 then condEval
  else false

/-- `req.stale`: `!this.fresh`. -/
def staleGetter (method : String) (status : Int) (condEval : Bool) : Bool :=
  !(freshGetter method status condEval)

/-! ## Concrete render fixtures -/

/-- A one-file view directory. -/
def exampleFs : List String := ["views/index.html"]

/-- An engine table with an `.html` engine registered. -/
def exampleEngines : List (String × FnVal) := [(".html", .user 0)]

/-- The external engine loader that never finds a module. -/
def noDynLoad : String → Option FnVal := fun _ => none

/-- An application with the view cache setting enabled. -/
def cacheOnApp : App :=
  { settings := [("view cache", .bool true), ("views", .str "views")],
    tpDefault := true, chain := [], engines := exampleEngines, cache := [] }

/-- An application with the view cache setting disabled (absent). -/
def cacheOffApp : App :=
  { settings := [("views", .str "views")],
    tpDefault := true, chain := [], engines := exampleEngines, cache := [] }

/-- The view `appRender` resolves for `index.html` under `views`. -/
def exampleView : View :=
  { name := "index.html", ext := ".html", root := ["views"],
    engine := .user 0, path := some "views/index.html" }

/-- `cacheOnApp` after a first successful cached render of `index.html`. -/
def cacheOnAppAfter : App :=
  { cacheOnApp with cache := [("index.html", exampleView)] }

/-! ## Association-list lemmas -/

theorem alookup_ainsert_self {α : Type} (m : List (String × α)) (k : String) (v : α) :
    alookup (ainsert m k v) k = some v := by
  induction m with
  | nil => simp [ainsert, alookup]
  | cons p rest ih =>
    obtain ⟨k2, w⟩ := p
    by_cases hk : k2 = k
    · simp [ainsert, alookup, hk]
    · simp [ainsert, alookup, hk, ih]

theorem alookup_ainsert_ne {α : Type} (m : List (String × α)) (k k2 : String) (v : α)
    (h : k2 ≠ k) : alookup (ainsert m k2 v) k = alookup m k := by
  induction m with
  | nil => simp [ainsert, alookup, h]
  | cons p rest ih =>
    obtain ⟨k3, w⟩ := p
    by_cases hk : k3 = k2
    · simp [ainsert, alookup, hk, h]
    · simp only [ainsert, if_neg hk]
      by_cases hk3 : k3 = k
      · simp [alookup, hk3]
      · simp [alookup, hk3, ih]

theorem alookup_aerase_self {α : Type} (m : List (String × α)) (k : String) :
    alookup (aerase m k) k = none := by
  induction m with
  | nil => simp [aerase, alookup]
  | cons p rest ih =>
    obtain ⟨k2, w⟩ := p
    by_cases hk : k2 = k
    · simp [aerase, hk, ih]
    · simp [aerase, alookup, hk, ih]

theorem alookup_aerase_ne {α : Type} (m : List (String × α)) (k k2 : String)
    (h : k ≠ k2) : alookup (aerase m k2) k = alookup m k := by
  induction m with
  | nil => simp [aerase, alookup]
  | cons p rest ih =>
    obtain ⟨k3, w⟩ := p
    by_cases hk : k3 = k2
    · have e1 : aerase ((k3, w) :: rest) k2 = aerase rest k2 := by
        simp [aerase, hk]
      have hne : k3 ≠ k := by
        rw [hk]
        exact fun hc => h hc.symm
      rw [e1, ih]
      simp [alookup, hne]
    · have e1 : aerase ((k3, w) :: rest) k2 = (k3, w) :: aerase rest k2 := by
        simp [aerase, hk]
      rw [e1]
      by_cases hk3 : k3 = k
      · simp [alookup, hk3]
      · simp [alookup, hk3, ih]

/-! ## Claim C4: trust-proxy mount inheritance -/

/-- Claim C4: mounting a sub-application that still has the unmodified
default trust setting under a parent exposing a compiled
`trust proxy fn` deletes the sub's own `trust proxy`/`trust proxy fn`
entries, so the lookup falls through to the parent's compiled function; a
sub-application whose trust proxy was ever set directly keeps its own
values across mounting; and every direct `set("trust proxy", …)` resets
the inheritability marker to explicit. -/
theorem claim_C4_trust_proxy_inheritance :
    (∀ parent sub : App, sub.tpDefault = true →
        isFnOpt (appGet parent "trust proxy fn") = true →
        appGet (onmount sub parent) "trust proxy fn"
            = appGet parent "trust proxy fn" ∧
        alookup (onmount sub parent).settings "trust proxy" = none ∧
        alookup (onmount sub parent).settings "trust proxy fn" = none) ∧
    (∀ (parent sub : App) (v : JsVal),
        (onmount ((appSet sub "trust proxy" v).1) parent).settings
            = ((appSet sub "trust proxy" v).1).settings ∧
        appGet (onmount ((appSet sub "trust proxy" v).1) parent) "trust proxy"
            = some v ∧
        appGet (onmount ((appSet sub "trust proxy" v).1) parent) "trust proxy fn"
            = some (compileTrust v)) ∧
    (∀ (a : App) (v : JsVal), ((appSet a "trust proxy" v).1).tpDefault = false) := by
  refine ⟨?_, ?_, ?_⟩
  · intro parent sub hdef hfn
    unfold onmount
    rw [hdef, hfn]
    simp only [Bool.and_self, if_true]
    refine ⟨?_, ?_, ?_⟩
    · simp [appGet, chainLookup, alookup_aerase_self]
    · rw [alookup_aerase_ne _ "trust proxy" "trust proxy fn" (by decide)]
      exact alookup_aerase_self sub.settings "trust proxy"
    · exact alookup_aerase_self _ "trust proxy fn"
  · intro parent sub v
    simp only [appSet, onmount]
    simp only [Bool.false_and, Bool.false_eq_true, if_false]
    refine ⟨by trivial, ?_, ?_⟩
    · simp only [appGet,
        alookup_ainsert_ne _ "trust proxy" "trust proxy fn" _ (by decide),
        alookup_ainsert_self]
    · simp only [appGet, alookup_ainsert_self]
  · intro a v
    simp [appSet]

/-- Witness for claim C4: a default sub-application mounted under a
parent with `trust proxy` set to `true` sees the parent's constant-true
compiled policy; the direct set itself produced that policy and cleared
the marker. -/
theorem claim_C4_trust_proxy_inheritance_witness :
    appGet (onmount defaultApp ((appSet defaultApp "trust proxy" (.bool true)).1))
        "trust proxy fn" = some (.fn .constTrue) ∧
    ((appSet defaultApp "trust proxy" (.bool true)).1).tpDefault = false := by
  constructor
  · have h := (claim_C4_trust_proxy_inheritance.1
        ((appSet defaultApp "trust proxy" (.bool true)).1) defaultApp
        (by decide) (by decide)).1
    rw [h]
    decide
  · exact claim_C4_trust_proxy_inheritance.2.2 defaultApp (.bool true)

/-! ## Claims C7, C8, C9 -/

/-- Claim C7: `subdomains` splits a non-IP hostname on dots, reverses and
drops the first `subdomain offset` entries; an IP-literal hostname is a
single-element list, hence `[]` under the default offset 2; an absent
hostname gives `[]`; including the spec's examples. -/
theorem claim_C7_subdomains :
    (∀ (isip : String → Bool) (offset : Int),
        subdomainsGetter isip none offset = []) ∧
    (∀ (isip : String → Bool) (h : String), isip h = true →
        subdomainsGetter isip (some h) 2 = []) ∧
    (∀ (isip : String → Bool) (h : String) (offset : Nat),
        isip h = false → h ≠ "" →
        subdomainsGetter isip (some h) (offset : Int)
          = ((splitOnChar '.' h).reverse).drop offset) ∧
    subdomainsGetter (fun _ => false) (some "tobi.ferrets.example.com") 2
        = ["ferrets", "tobi"] ∧
    subdomainsGetter (fun _ => false) (some "tobi.ferrets.example.com") 3
        = ["tobi"] ∧
    subdomainsGetter (fun s => s = "192.168.0.1") (some "192.168.0.1") 2 = [] := by
  refine ⟨?_, ?_, ?_, by decide, by decide, by decide⟩
  · intro isip offset
    rfl
  · intro isip h hip
    by_cases hh : h = ""
    · simp [subdomainsGetter, hh]
    · simp [subdomainsGetter, hh, hip, jsSlice]
  · intro isip h offset hip hh
    have hnonneg : ¬((offset : Int) < 0) := by
      simp
    simp only [subdomainsGetter, if_neg hh, hip, Bool.not_false, if_true, jsSlice,
      hnonneg, if_false, Int.toNat_natCast]

/-- Witness for claim C7 at an IP literal and at a one-level offset. -/
theorem claim_C7_subdomains_witness :
    subdomainsGetter (fun s => s = "10.0.0.1") (some "10.0.0.1") 2 = [] ∧
    subdomainsGetter (fun _ => false) (some "a.b.c.d") 1 = ["c", "b", "a"] := by
  constructor
  · exact claim_C7_subdomains.2.1 (fun s => s = "10.0.0.1") "10.0.0.1" (by decide)
  · have h := claim_C7_subdomains.2.2.1 (fun _ => false) "a.b.c.d" 1 rfl (by decide)
    have h2 : subdomainsGetter (fun _ => false) (some "a.b.c.d") 1
        = List.drop 1 (splitOnChar '.' "a.b.c.d").reverse := by
      exact_mod_cast h
    rw [h2]
    decide

/-- Claim C8: `fresh` is false for any method other than `GET`/`HEAD` and
for any status outside `[200, 300) ∪ {304}`; when both gates pass it
equals the conditional-request evaluator's verdict; and `stale` is always
the negation of `fresh`. -/
theorem claim_C8_fresh_stale :
    (∀ (m : String) (s : Int) (c : Bool), m ≠ "GET" → m ≠ "HEAD" →
        freshGetter m s c = false) ∧
    (∀ (m : String) (s : Int) (c : Bool),
        ¬((200 ≤ s ∧ s < 300) ∨ s = 304) → freshGetter m s c = false) ∧
    (∀ (m : String) (s : Int) (c : Bool), (m = "GET" ∨ m = "HEAD") →
        ((200 ≤ s ∧ s < 300) ∨ s = 304) → freshGetter m s c = c) ∧
    (∀ (m : String) (s : Int) (c : Bool),
        staleGetter m s c = !(freshGetter m s c)) := by
  refine ⟨?_, ?_, ?_, fun m s c => rfl⟩
  · intro m s c h1 h2
    simp [freshGetter, h1, h2]
  · intro m s c hs
    by_cases hm : m ≠ "GET" ∧ m ≠ "HEAD"
    · simp [freshGetter, hm]
    · simp [freshGetter, hm, hs]
  · intro m s c hm hs
    have hm2 : ¬(m ≠ "GET" ∧ m ≠ "HEAD") := by
      rcases hm with h | h <;> simp [h]
    simp [freshGetter, hm2, hs]

/-- Witness for claim C8: a `POST` is never fresh, a `GET` at 304 follows
the evaluator, and `stale` negates `fresh`. -/
theorem claim_C8_fresh_stale_witness :
    freshGetter "POST" 200 true = false ∧
    freshGetter "GET" 304 true = true ∧
    staleGetter "GET" 304 true = false := by
  refine ⟨claim_C8_fresh_stale.1 "POST" 200 true (by decide) (by decide), ?_, ?_⟩
  · exact claim_C8_fresh_stale.2.2.1 "GET" 304 true (Or.inl rfl) (Or.inr rfl)
  · rw [claim_C8_fresh_stale.2.2.2 "GET" 304 true]
    decide

/-- Claim C9: a synchronous throw from the engine callable during render
is caught at the render boundary and delivered as the error argument of
the same callback; a normal callback invocation passes through
unchanged — in neither case does an exception reach `render`'s caller. -/
theorem claim_C9_engine_exception :
    (∀ (sem : EngineSem) (v : View) (opts : List (String × String)) (e : String),
        viewRenderCall sem v opts = .threw e →
        tryRender sem v opts = { err := some e, body := none }) ∧
    (∀ (sem : EngineSem) (v : View) (opts : List (String × String))
        (err body : Option String),
        viewRenderCall sem v opts = .calledBack err body →
        tryRender sem v opts = { err := err, body := body }) := by
  constructor
  · intro sem v opts e h
    simp [tryRender, h]
  · intro sem v opts err body h
    simp [tryRender, h]

/-- Witness for claim C9: an engine that always throws produces a
callback invocation carrying the thrown error. -/
theorem claim_C9_engine_exception_witness :
    tryRender (fun _ _ => .threw "engine blew up")
        { name := "index.html", ext := ".html", root := ["views"],
          engine := .user 0, path := some "views/index.html" } []
      = { err := some "engine blew up", body := none } := by
  exact claim_C9_engine_exception.1 (fun _ _ => .threw "engine blew up")
    { name := "index.html", ext := ".html", root := ["views"],
      engine := .user 0, path := some "views/index.html" } [] "engine blew up" rfl

/-! ## Claim C6: the render cache -/

/-- Counterexample to claim C6 as written: an entry is added to the
render cache even though the `view cache` setting is disabled, because an
explicit `options.cache = true` overrides the setting when computing the
effective cache flag. -/
theorem claim_C6_counterexample :
    appEnabled cacheOffApp "view cache" = false ∧
    (appRender noDynLoad exampleFs cacheOffApp "index.html" (some true)).1.cache
        = [("index.html", exampleView)] := by
  exact ⟨by decide, by decide⟩


/-- Claim C6 (amended): with the `view cache` setting enabled and no
per-call override, a second render of the same name hits the cache
instead of re-resolving; with the effective cache flag false
(`options.cache` if explicitly provided, else the setting) a render never
reads the cache and never adds an entry to it. -/
theorem claim_C6_render_cache :
    (∀ (dynLoad : String → Option FnVal) (fs : List String) (a : App)
        (name : String) (v : View) (a1 : App),
        appEnabled a "view cache" = true →
        appRender dynLoad fs a name none = (a1, .resolved v) →
        appRender dynLoad fs a1 name none = (a1, .cacheHit v)) ∧
    (∀ (dynLoad : String → Option FnVal) (fs : List String) (a : App)
        (name : String) (oc : Option Bool),
        oc.getD (appEnabled a "view cache") = false →
        ((appRender dynLoad fs a name oc).1).cache = a.cache ∧
        ∀ v, (appRender dynLoad fs a name oc).2 ≠ .cacheHit v) := by
  constructor
  · intro dynLoad fs a name v a1 hen h
    simp only [appRender, Option.getD_none, hen, eq_self_iff_true, if_true] at h
    cases hc : alookup a.cache name with
    | some v2 =>
      simp only [hc] at h
      simp at h
    | none =>
      simp only [hc] at h
      cases hv : viewNew dynLoad fs name
          { defaultEngine := viewEngineOf a, root := viewRootsOf a,
            engines := a.engines } with
      | error e =>
        simp only [hv] at h
        simp at h
      | ok p =>
        obtain ⟨v2, engines2⟩ := p
        simp only [hv] at h
        cases hp : v2.path with
        | none =>
          simp only [hp] at h
          simp at h
        | some pth =>
          simp only [hp] at h
          rw [Prod.mk.injEq] at h
          obtain ⟨h1, h2⟩ := h
          injection h2 with h3
          subst h3
          subst h1
          have hen2 : appEnabled
              { a with
                engines := engines2
                cache := ainsert a.cache name v2 }
              "view cache" = true := hen
          simp only [appRender, Option.getD_none, hen2, eq_self_iff_true, if_true]
          have hc2 : alookup
              ({ a with
                  engines := engines2
                  cache := ainsert a.cache name v2 } : App).cache name = some v2 :=
            alookup_ainsert_self a.cache name v2
          simp only [hc2]
  · intro dynLoad fs a name oc hoff
    have key : appRender dynLoad fs a name oc
        = (match viewNew dynLoad fs name
            { defaultEngine := viewEngineOf a, root := viewRootsOf a,
              engines := a.engines } with
          | .error e => (a, .thrown e)
          | .ok (v2, engines2) =>
            match v2.path with
            | none => ({ a with engines := engines2 }, .lookupFailed name)
            | some _ => ({ a with engines := engines2 }, .resolved v2)) := by
      simp only [appRender, hoff, Bool.false_eq_true, if_false]
    constructor
    · rw [key]
      split
      · rfl
      · split
        · rfl
        · rfl
    · intro v hcon
      rw [key] at hcon
      split at hcon
      · exact RenderOutcome.noConfusion hcon
      · split at hcon
        · exact RenderOutcome.noConfusion hcon
        · exact RenderOutcome.noConfusion hcon

/-- Witness for claim C6: a first render under an enabled cache resolves
from disk and primes the cache; the second render returns the cached
view. -/
theorem claim_C6_render_cache_witness :
    appEnabled cacheOnApp "view cache" = true ∧
    appRender noDynLoad exampleFs cacheOnApp "index.html" none
        = (cacheOnAppAfter, .resolved exampleView) ∧
    appRender noDynLoad exampleFs cacheOnAppAfter "index.html" none
        = (cacheOnAppAfter, .cacheHit exampleView) := by
  refine ⟨by decide, by decide, ?_⟩
  exact claim_C6_render_cache.1 noDynLoad exampleFs cacheOnApp "index.html"
    exampleView cacheOnAppAfter (by decide) (by decide)
